import Mathlib

/-!
Verification of the amaterasu secure-deletion engine: a shallow embedding of
the pattern model, the buffer pool, the chunked writers, the verifier, the
filesystem probe and the metadata wiper, with theorems settling the frozen
claims about them.  Rust machine integers are modelled as `Nat` (no arithmetic
here approaches overflow), byte buffers as `List Nat`, strings as `List Char`,
and OS entropy / RNG draws as explicit function parameters.
-/

namespace Amaterasu

/-! ### patterns/mod.rs -/

/-- Wipe modes, from `WipeMode` in src/lib.rs. -/
inductive WipeMode where
  | Fast
  | Standard
  | Paranoid
deriving DecidableEq, Repr

/-- `WipePattern` from src/patterns/mod.rs.  `Random` carries the ChaCha20
generator state, modelled abstractly as the seed drawn from the OS entropy
source (`ChaCha20Rng::from_entropy`); the stream it produces is irrelevant to
the claims, only the identity of the state is. -/
inductive WipePattern where
  | Random (state : Nat)
  | Fixed (b : Nat)
  | Zeros
  | Ones
deriving DecidableEq, Repr

/-- `WipePattern::generate` from src/patterns/mod.rs: fills a buffer of `n`
bytes.  The ChaCha20 byte stream is an opaque parameter `chacha` mapping the
generator state and length to bytes. -/
def WipePattern.generate (chacha : Nat → Nat → List Nat) :
    WipePattern → Nat → List Nat
  | .Random s, n => chacha s n
  | .Fixed b, n => List.replicate n b
  | .Zeros, n => List.replicate n 0x00
  | .Ones, n => List.replicate n 0xFF

/-- The constructor shape of a pattern, used to compare sequences while
abstracting over the random generator state. -/
inductive PatternKind where
  | random
  | fixed (b : Nat)
  | zeros
  | ones
deriving DecidableEq, Repr

/-- Forgetful map from a pattern to its kind. -/
def WipePattern.kind : WipePattern → PatternKind
  | .Random _ => .random
  | .Fixed b => .fixed b
  | .Zeros => .zeros
  | .Ones => .ones

/-- `create_random_generator` from src/patterns/mod.rs:
`ChaCha20Rng::from_entropy()` wrapped in `WipePattern::Random`; the entropy
drawn is the explicit argument. -/
def create_random_generator (entropy : Nat) : WipePattern :=
  WipePattern.Random entropy

/-- `create_pattern_sequence` from src/patterns/mod.rs (lines 56-74).  Each
call to `create_random_generator` draws fresh OS entropy, supplied here by the
`entropy` stream, one draw per call in order. -/
def create_pattern_sequence (mode : WipeMode) (entropy : Nat → Nat) :
    List WipePattern :=
  match mode with
  | .Fast => [create_random_generator (entropy 0)]
  | .Standard =>
      [create_random_generator (entropy 0),
       WipePattern.Zeros,
       create_random_generator (entropy 1)]
  | .Paranoid =>
      [create_random_generator (entropy 0),
       WipePattern.Fixed 0x55,
       WipePattern.Fixed 0xAA,
       create_random_generator (entropy 1),
       WipePattern.Ones,
       WipePattern.Zeros,
       create_random_generator (entropy 2)]

/-! ### storage/mod.rs -/

/-- `StorageType` from src/storage/mod.rs. -/
inductive StorageType where
  | HDD (rotational : Bool) (block_size : Nat)
  | SSD (trim_support : Bool)
  | NVMe (optimal_io_size : Nat)
  | Unknown
deriving DecidableEq, Repr

/-- `StorageType::get_optimal_block_size` from src/storage/mod.rs. -/
def StorageType.get_optimal_block_size : StorageType → Nat
  | .HDD _ block_size => block_size
  | .SSD _ => 4096
  | .NVMe optimal_io_size => optimal_io_size
  | .Unknown => 4096

/-! ### impl Clone for WipePattern, src/io/async_writer.rs (lines 120-133) -/

/-- `Clone for WipePattern` from src/io/async_writer.rs: a `Random` clone is
built by `ChaCha20Rng::from_entropy()`, i.e. from a fresh entropy draw
(the `entropy` argument), discarding the original state; the deterministic
variants are copied verbatim. -/
def WipePattern.clone (p : WipePattern) (entropy : Nat) : WipePattern :=
  match p with
  | .Random _ => WipePattern.Random entropy
  | .Fixed b => WipePattern.Fixed b
  | .Zeros => WipePattern.Zeros
  | .Ones => WipePattern.Ones

/-! ### Buffer pool, src/io/async_writer.rs (lines 17-39)

Buffers are identified with their lengths (`Vec<u8>` of length `n` becomes
`n`); the pool state is the `VecDeque` of pooled buffer lengths, front at the
head of the list. -/

/-- `BufferPool`'s configuration fields from src/io/async_writer.rs. -/
structure BufferPool where
  buffer_size : Nat
  max_buffers : Nat
deriving DecidableEq, Repr

/-- `BufferPool::get_buffer`: pop the front buffer if one is pooled, else
allocate a fresh `vec![0u8; buffer_size]`.  Returns the buffer (its length)
and the new pool state. -/
def get_buffer (p : BufferPool) : List Nat → Nat × List Nat
  | [] => (p.buffer_size, [])
  | b :: rest => (b, rest)

/-- `BufferPool::return_buffer`: push the buffer back only when the pool has
room and the buffer has the pool's configured size; otherwise it is dropped. -/
def return_buffer (p : BufferPool) (buf : Nat) (s : List Nat) : List Nat :=
  if decide (s.length < p.max_buffers) && (buf == p.buffer_size) then
    s ++ [buf]
  else
    s

/-- One client-visible buffer-pool call. -/
inductive PoolOp where
  | acquire
  | release (len : Nat)
deriving DecidableEq, Repr

/-- Run a sequence of pool calls against a pool state. -/
def run_pool (p : BufferPool) : List PoolOp → List Nat → List Nat
  | [], s => s
  | PoolOp.acquire :: ops, s => run_pool p ops (get_buffer p s).2
  | PoolOp.release len :: ops, s => run_pool p ops (return_buffer p len s)

/-! ### Parallel writer, src/io/async_writer.rs (lines 57-116)

`AsyncWiper::parallel_wipe` partitions `[0, file_size)` and spawns
`wipe_chunk` per chunk; `wipe_chunk` takes a pool buffer (every buffer in the
pool has length `buffer_size`, the pool invariant proved below) and writes the
slice `&mut buffer[..chunk_size.min(buffer_len)]` at the chunk's offset. -/

/-- The `(start_offset, current_chunk_size)` pairs produced by
`AsyncWiper::parallel_wipe` (src/io/async_writer.rs lines 97-110). -/
def parallel_chunk_ranges (file_size chunk_size : Nat) : List (Nat × Nat) :=
  let chunks := (file_size + chunk_size - 1) / chunk_size
  (List.range chunks).map (fun i =>
    let start_offset := i * chunk_size
    (start_offset,
     if i = chunks - 1 then file_size - start_offset else chunk_size))

/-- Number of bytes `AsyncWiper::wipe_chunk` actually writes: the slice taken
from the pool buffer is `buffer[..chunk_size.min(buffer_len)]`
(src/io/async_writer.rs line 71). -/
def wipe_chunk_write_len (buffer_len chunk_size : Nat) : Nat :=
  min chunk_size buffer_len

/-- The `(offset, bytes written)` pairs of one pass of
`FileWiper::async_wipe_pass` (src/io/mod.rs lines 147-174): the chunk size is
`optimal_block_size * 16` (line 155) while the `AsyncWiper` buffer pool was
constructed with `buffer_size = optimal_block_size` (line 63), so each task
writes `wipe_chunk_write_len optimal_block_size chunk_size` bytes. -/
def async_wipe_pass_writes (optimal_block_size file_size : Nat) :
    List (Nat × Nat) :=
  (parallel_chunk_ranges file_size (optimal_block_size * 16)).map
    (fun sc => (sc.1, wipe_chunk_write_len optimal_block_size sc.2))

/-- The observable byte at offset `off` after a set of `Fixed b` chunk writes
over pairwise-disjoint ranges: `b` where some write covers the offset, the
original content elsewhere. -/
def byte_after_fixed_writes (writes : List (Nat × Nat)) (b : Nat)
    (orig : Nat → Nat) (off : Nat) : Nat :=
  if writes.any (fun w => decide (w.1 ≤ off) && decide (off < w.1 + w.2)) then
    b
  else
    orig off

/-- The branch `file_size > 1024 * 1024` selecting the parallel path in
`FileWiper::wipe` (src/io/mod.rs line 80). -/
def uses_parallel_path (file_size : Nat) : Bool :=
  decide (1048576 < file_size)

/-! ### Streamed pass, src/io/mod.rs `FileWiper::wipe_pass` (lines 106-145) -/

/-- The chunk sizes written by the `while bytes_written < file_size` loop of
`FileWiper::wipe_pass`, computed with explicit fuel (each iteration writes
`min block_size remaining` bytes and decreases `remaining` by that amount; any
fuel at least `file_size` is enough when `block_size > 0`). -/
def stream_chunks_aux : Nat → Nat → Nat → List Nat
  | 0, _, _ => []
  | fuel + 1, block_size, remaining =>
    if remaining = 0 then
      []
    else
      let chunk_size := min block_size remaining
      chunk_size :: stream_chunks_aux fuel block_size (remaining - chunk_size)

/-- The chunk sizes of one streamed pass over a file of `file_size` bytes. -/
def stream_chunks (block_size file_size : Nat) : List Nat :=
  stream_chunks_aux file_size block_size file_size

/-- File-handle events of one streamed pass. -/
inductive PassEvent where
  | seek (off : Nat)
  | write (n : Nat)
  | flush
  | syncAll
deriving DecidableEq, Repr

/-- Loop body events of `FileWiper::wipe_pass`: a write of each chunk followed
by a flush, same fuel discipline as `stream_chunks_aux`. -/
def wipe_pass_aux : Nat → Nat → Nat → List PassEvent
  | 0, _, _ => []
  | fuel + 1, block_size, remaining =>
    if remaining = 0 then
      []
    else
      let chunk_size := min block_size remaining
      PassEvent.write chunk_size :: PassEvent.flush ::
        wipe_pass_aux fuel block_size (remaining - chunk_size)

/-- Full event trace of `FileWiper::wipe_pass`: seek to offset 0 (line 119),
the write/flush loop (lines 124-137), one `sync_all` after the loop
(line 139). -/
def wipe_pass_trace (block_size file_size : Nat) : List PassEvent :=
  PassEvent.seek 0 :: wipe_pass_aux file_size block_size file_size
    ++ [PassEvent.syncAll]

/-! ### Verifier, src/io/mod.rs `FileWiper::verify_wipe` (lines 176-217) -/

/-- The read loop of `FileWiper::verify_wipe`: scan the file in 8192-byte
windows, stopping as soon as a non-zero byte is seen; fuel as above (each
iteration consumes at least one byte). -/
def verify_loop_aux : Nat → List Nat → Bool
  | 0, _ => false
  | fuel + 1, l =>
    if l = [] then
      false
    else if (l.take 8192).any (fun b => b != 0) then
      true
    else
      verify_loop_aux fuel (l.drop 8192)

/-- `pattern_found` as computed by `FileWiper::verify_wipe` on a file whose
contents are `contents`. -/
def verify_scan (contents : List Nat) : Bool :=
  verify_loop_aux contents.length contents

/-- The message printed by `FileWiper::verify_wipe`. -/
inductive VerifyOutcome where
  | warnedAllZeros
  | success
deriving DecidableEq, Repr

/-- `FileWiper::verify_wipe`: the printed outcome together with the returned
`Result`.  Both source branches return `Ok(())` (lines 208-213), so the second
component is `none` (no error) regardless of the scan outcome. -/
def verify_wipe {ε : Type} (contents : List Nat) : VerifyOutcome × Option ε :=
  (if verify_scan contents then VerifyOutcome.success
   else VerifyOutcome.warnedAllZeros,
   none)

/-! ### Orchestrator, src/io/mod.rs `FileWiper::wipe` (lines 24-104)

The per-file orchestration is modelled as the sequence of externally visible
steps it performs.  Pass-level I/O outcomes are an oracle `passResult`
(`none` = the pass succeeded, `some e` = a write/seek/sync in pass `i` failed
with error `e`), matching the `?` propagation in the pass loop (lines 65-88).
All optimizer hooks in the source return `Ok` unconditionally, so the hooks
are plain events. -/

/-- `AmaterasuConfig` from src/lib.rs. -/
structure AmaterasuConfig where
  verify : Bool
  progress : Bool
  force : Bool
  mode : WipeMode
deriving DecidableEq, Repr

/-- Externally visible steps of the orchestrator and of the metadata wiper. -/
inductive OrchEvent where
  | preSetup
  | passRun (parallel : Bool) (i : Nat)
  | verifyRun
  | postCleanup
  | removeFile
  | tsRandomize
  | xattrClear
  | renameStep (i : Nat)
  | metaUnlink
deriving DecidableEq, Repr

/-- Steps performed only by `MetadataWiper::wipe_metadata`. -/
def OrchEvent.isMetadataStep : OrchEvent → Bool
  | .tsRandomize => true
  | .xattrClear => true
  | .renameStep _ => true
  | .metaUnlink => true
  | _ => false

/-- Recognizer for pass events. -/
def OrchEvent.isPassRun : OrchEvent → Bool
  | .passRun _ _ => true
  | _ => false

/-- The `for (pass_num, pattern) in patterns` loop of `FileWiper::wipe`
(lines 65-88): run passes `start, start+1, ...` while `passResult` reports
success, stopping (and keeping the error) at the first failing pass; `count`
passes remain. -/
def pass_loop {ε : Type} (passResult : Nat → Option ε) (parallel : Bool) :
    Nat → Nat → List OrchEvent × Option ε
  | _, 0 => ([], none)
  | start, count + 1 =>
    match passResult start with
    | none =>
        let rest := pass_loop passResult parallel (start + 1) count
        (OrchEvent.passRun parallel start :: rest.1, rest.2)
    | some e => ([OrchEvent.passRun parallel start], some e)

/-- `FileWiper::wipe` (src/io/mod.rs lines 24-104): pre-wipe setup, one pass
per pattern (parallel path iff `file_size > 1024 * 1024`), the verifier when
`config.verify`, post-wipe cleanup, then `std::fs::remove_file` — each step
skipped as soon as an earlier fallible step returned an error.  Returns the
event trace together with the final result. -/
def FileWiper.wipe {ε : Type} (config : AmaterasuConfig)
    (patterns : List WipePattern) (passResult : Nat → Option ε)
    (file_size : Nat) (contents : List Nat) : List OrchEvent × Option ε :=
  match (pass_loop passResult (uses_parallel_path file_size) 0
      patterns.length).2 with
  | some e =>
      (OrchEvent.preSetup ::
        (pass_loop passResult (uses_parallel_path file_size) 0
          patterns.length).1,
       some e)
  | none =>
    match (if config.verify then (verify_wipe (ε := ε) contents).2
           else none) with
    | some e =>
        (OrchEvent.preSetup ::
          (pass_loop passResult (uses_parallel_path file_size) 0
            patterns.length).1
          ++ [OrchEvent.verifyRun],
         some e)
    | none =>
        (OrchEvent.preSetup ::
          (pass_loop passResult (uses_parallel_path file_size) 0
            patterns.length).1
          ++ (if config.verify then [OrchEvent.verifyRun] else [])
          ++ [OrchEvent.postCleanup, OrchEvent.removeFile],
         none)

/-! ### Metadata wiper, src/security/metadata.rs -/

/-- `MetadataWiper`'s fields from src/security/metadata.rs. -/
structure MetadataWiper where
  rename_iterations : Nat
  timestamp_randomization : Bool
  clear_extended_attributes : Bool
deriving DecidableEq, Repr

/-- The steps of `MetadataWiper::wipe_metadata` (src/security/metadata.rs
lines 32-79) in order: timestamp randomization and xattr clearing when
enabled, one rename per iteration, then the final unlink. -/
def MetadataWiper.wipe_metadata_trace (w : MetadataWiper) : List OrchEvent :=
  (if w.timestamp_randomization then [OrchEvent.tsRandomize] else [])
    ++ (if w.clear_extended_attributes then [OrchEvent.xattrClear] else [])
    ++ (List.range w.rename_iterations).map OrchEvent.renameStep
    ++ [OrchEvent.metaUnlink]

/-- Name length chosen by `MetadataWiper::generate_random_name`
(src/security/metadata.rs lines 120-124). -/
def rename_name_length (iteration : Nat) : Nat :=
  match iteration with
  | 0 => 16
  | 1 => 8
  | _ => 1

/-- The alphabet used by `MetadataWiper::generate_random_name`
(src/security/metadata.rs line 128). -/
def rename_chars : List Char :=
  "abcdefghijklmnopqrstuvwxyzABCDEFGHIJKLMNOPQRSTUVWXYZ0123456789".data

/-- `Path::parent().unwrap_or(Path::new("/"))` as used by
`generate_random_name` (src/security/metadata.rs line 115), on paths modelled
as component lists. -/
def path_parent (p : List (List Char)) : List (List Char) :=
  if p.isEmpty then ["/".data] else p.dropLast

/-- `MetadataWiper::generate_random_name` (src/security/metadata.rs lines
114-134): a fresh random name of `rename_name_length iteration` characters
from `rename_chars`, joined onto the parent directory of the current path.
`rng k` models the `k`-th `gen_range(0..chars.len())` draw (reduced mod the
alphabet size, as `gen_range` guarantees). -/
def generate_random_name (current_path : List (List Char)) (iteration : Nat)
    (rng : Nat → Nat) : List (List Char) :=
  let random_name := (List.range (rename_name_length iteration)).map
    (fun k => rename_chars.getD (rng k % rename_chars.length) 'a')
  path_parent current_path ++ [random_name]

/-! ### Filesystem probe, src/filesystem/detector.rs and mod.rs -/

/-- `FilesystemType` from src/filesystem/mod.rs. -/
inductive FilesystemType where
  | Ext4 (has_journal : Bool)
  | Btrfs (subvolume : Bool)
  | Xfs (realtime : Bool)
  | Zfs (compression : Bool)
  | F2fs
  | Unknown
deriving DecidableEq, Repr

/-- Substring test over character lists, the semantics of Rust's
`str::contains` with a string pattern. -/
def contains_substr (hay needle : List Char) : Bool :=
  match hay with
  | [] => needle.isEmpty
  | _ :: t => needle.isPrefixOf hay || contains_substr t needle

/-- `check_ext4_journal` (src/filesystem/detector.rs lines 76-85).  The
environment's response to running `dumpe2fs -h <device>` is the oracle
`dumpe2fs`: `some out` when the command ran and exited successfully with
stdout `out`, `none` when it could not be executed or exited unsuccessfully.
In the latter case the source assumes a journal is present. -/
def check_ext4_journal (dumpe2fs : List Char → Option (List Char))
    (device : List Char) : Bool :=
  match dumpe2fs device with
  | some out => contains_substr out "has_journal".data
  | none => true

/-- `check_xfs_realtime` (src/filesystem/detector.rs lines 87-90). -/
def check_xfs_realtime (_device : List Char) : Bool :=
  false

/-- `check_zfs_compression` (src/filesystem/detector.rs lines 92-95). -/
def check_zfs_compression (_device : List Char) : Bool :=
  true

/-- `parse_filesystem_type` (src/filesystem/detector.rs lines 53-74), with
the same `dumpe2fs` oracle threaded to the journal probe. -/
def parse_filesystem_type (dumpe2fs : List Char → Option (List Char))
    (fs_type device : List Char) : FilesystemType :=
  let lower := fs_type.map Char.toLower
  if lower = "ext4".data then
    FilesystemType.Ext4 (check_ext4_journal dumpe2fs device)
  else if lower = "btrfs".data then
    FilesystemType.Btrfs (contains_substr device "subvol".data)
  else if lower = "xfs".data then
    FilesystemType.Xfs (check_xfs_realtime device)
  else if lower = "zfs".data then
    FilesystemType.Zfs (check_zfs_compression device)
  else if lower = "f2fs".data then
    FilesystemType.F2fs
  else
    FilesystemType.Unknown

/-! ## Helper lemmas -/

/-- The pool invariant: the pool never holds more than `max_buffers` buffers,
and every pooled buffer has length `buffer_size`.  Preserved by any sequence
of calls. -/
theorem run_pool_inv (p : BufferPool) :
    ∀ (ops : List PoolOp) (s : List Nat),
      s.length ≤ p.max_buffers → (∀ b ∈ s, b = p.buffer_size) →
      (run_pool p ops s).length ≤ p.max_buffers ∧
        ∀ b ∈ run_pool p ops s, b = p.buffer_size := by
  intro ops
  induction ops with
  | nil => intro s h1 h2; exact ⟨h1, h2⟩
  | cons op ops ih =>
    intro s h1 h2
    cases op with
    | acquire =>
      cases s with
      | nil => exact ih [] (by simp) (by simp)
      | cons b rest =>
        refine ih rest ?_ ?_
        · exact le_trans (by simp [get_buffer]) h1
        · intro x hx
          exact h2 x (by simp [get_buffer] at hx ⊢; right; exact hx)
    | release len =>
      by_cases hc : decide (s.length < p.max_buffers) && (len == p.buffer_size)
      · have hlt : s.length < p.max_buffers := by
          have := (Bool.and_eq_true _ _).mp hc |>.1
          simpa using this
        have hlen : len = p.buffer_size := by
          have := (Bool.and_eq_true _ _).mp hc |>.2
          simpa using this
        have hrb : return_buffer p len s = s ++ [len] := by
          simp only [return_buffer]
          rw [if_pos hc]
        rw [run_pool, hrb]
        refine ih (s ++ [len]) ?_ ?_
        · simpa using hlt
        · intro b hb
          rcases List.mem_append.mp hb with h | h
          · exact h2 b h
          · simp at h; omega
      · have : return_buffer p len s = s := by
          simp only [return_buffer]
          rw [if_neg (by simpa using hc)]
        rw [run_pool, this]
        exact ih s h1 h2

/-- Zero remaining bytes produce no chunks, whatever the fuel. -/
theorem stream_chunks_aux_zero (fuel bs : Nat) :
    stream_chunks_aux fuel bs 0 = [] := by
  cases fuel <;> simp [stream_chunks_aux]

/-- With positive block size and enough fuel, the streamed chunk sizes sum to
exactly the remaining byte count. -/
theorem stream_chunks_aux_sum (bs : Nat) (hbs : 0 < bs) :
    ∀ (fuel rem : Nat), rem ≤ fuel →
      (stream_chunks_aux fuel bs rem).sum = rem := by
  intro fuel
  induction fuel with
  | zero =>
    intro rem hrem
    have : rem = 0 := Nat.le_zero.mp hrem
    simp [this, stream_chunks_aux]
  | succ n ih =>
    intro rem hrem
    by_cases h0 : rem = 0
    · simp [h0, stream_chunks_aux]
    · have hmin1 : 1 ≤ min bs rem := by
        have : 0 < rem := Nat.pos_of_ne_zero h0
        omega
      have hminle : min bs rem ≤ rem := Nat.min_le_right bs rem
      have hrec : (stream_chunks_aux n bs (rem - min bs rem)).sum
          = rem - min bs rem := ih (rem - min bs rem) (by omega)
      simp only [stream_chunks_aux, if_neg h0, List.sum_cons, hrec]
      omega

/-- Enough fuel makes the chunk computation fuel-independent (when the block
size is positive, each loop iteration consumes at least one byte). -/
theorem stream_chunks_aux_fuel (bs : Nat) (hbs : 0 < bs) :
    ∀ (fuel1 fuel2 rem : Nat), rem ≤ fuel1 → rem ≤ fuel2 →
      stream_chunks_aux fuel1 bs rem = stream_chunks_aux fuel2 bs rem := by
  intro fuel1
  induction fuel1 with
  | zero =>
    intro fuel2 rem h1 _
    have : rem = 0 := Nat.le_zero.mp h1
    simp [this, stream_chunks_aux_zero]
  | succ n ih =>
    intro fuel2 rem h1 h2
    by_cases h0 : rem = 0
    · simp [h0, stream_chunks_aux_zero]
    · cases fuel2 with
      | zero => omega
      | succ m =>
        have hmin1 : 1 ≤ min bs rem := by
          have : 0 < rem := Nat.pos_of_ne_zero h0
          omega
        simp only [stream_chunks_aux, if_neg h0]
        rw [ih m (rem - min bs rem) (by omega) (by omega)]

/-- The loop of `wipe_pass` emits, for each computed chunk, a write of that
chunk followed by a flush. -/
theorem wipe_pass_aux_eq (bs : Nat) :
    ∀ (fuel rem : Nat),
      wipe_pass_aux fuel bs rem =
        (stream_chunks_aux fuel bs rem).flatMap
          (fun c => [PassEvent.write c, PassEvent.flush]) := by
  intro fuel
  induction fuel with
  | zero => intro rem; simp [wipe_pass_aux, stream_chunks_aux]
  | succ n ih =>
    intro rem
    by_cases h0 : rem = 0
    · simp [h0, wipe_pass_aux, stream_chunks_aux]
    · simp only [wipe_pass_aux, stream_chunks_aux, if_neg h0, List.flatMap_cons]
      rw [ih]
      rfl

/-! ## Claims -/

/-- Claim C6: for every mode the mode-defined pattern sequence
(`create_pattern_sequence`) is non-empty and consists exactly of:
Fast = [random]; Standard = [random, zeros, random];
Paranoid = [random, Fixed 0x55, Fixed 0xAA, random, ones, zeros, random]. -/
theorem create_pattern_sequence_spec (entropy : Nat → Nat) :
    (create_pattern_sequence WipeMode.Fast entropy).map WipePattern.kind
        = [PatternKind.random] ∧
    (create_pattern_sequence WipeMode.Standard entropy).map WipePattern.kind
        = [PatternKind.random, PatternKind.zeros, PatternKind.random] ∧
    (create_pattern_sequence WipeMode.Paranoid entropy).map WipePattern.kind
        = [PatternKind.random, PatternKind.fixed 0x55, PatternKind.fixed 0xAA,
           PatternKind.random, PatternKind.ones, PatternKind.zeros,
           PatternKind.random] ∧
    ∀ mode : WipeMode, 0 < (create_pattern_sequence mode entropy).length := by
  refine ⟨rfl, rfl, rfl, ?_⟩
  intro mode
  cases mode <;> simp [create_pattern_sequence]

/-- Claim C8: cloning a `Random` pattern yields a generator seeded from the
fresh entropy draw, independent of (and, for a distinct draw, different from)
the original state, so two clones seeded from distinct entropy draws do not
share state; cloning `Fixed`, `Zeros` or `Ones` yields an identical value. -/
theorem clone_reseeds_from_entropy (s1 s2 e b : Nat) :
    (WipePattern.Random s1).clone e = WipePattern.Random e ∧
    (WipePattern.Random s1).clone e = (WipePattern.Random s2).clone e ∧
    (e ≠ s1 → (WipePattern.Random s1).clone e ≠ WipePattern.Random s1) ∧
    (∀ e1 e2, e1 ≠ e2 →
      (WipePattern.Random s1).clone e1 ≠ (WipePattern.Random s2).clone e2) ∧
    (WipePattern.Fixed b).clone e = WipePattern.Fixed b ∧
    WipePattern.Zeros.clone e = WipePattern.Zeros ∧
    WipePattern.Ones.clone e = WipePattern.Ones := by
  refine ⟨rfl, rfl, ?_, ?_, rfl, rfl, rfl⟩
  · intro hne h
    exact hne (by simpa [WipePattern.clone] using h)
  · intro e1 e2 hne h
    exact hne (by simpa [WipePattern.clone] using h)

/-- Witness for C8 at concrete inputs. -/
theorem clone_reseeds_from_entropy_witness :
    (2 : Nat) ≠ 0 ∧ (WipePattern.Random 0).clone 2 ≠ WipePattern.Random 0 :=
  ⟨by decide, (clone_reseeds_from_entropy 0 1 2 0x55).2.2.1 (by decide)⟩

/-- Claim C7: over every sequence of acquire/release calls starting from the
empty pool, the pool never holds more than `max_buffers` buffers, every
acquire returns a buffer of length exactly `buffer_size`, and a released
buffer is retained exactly when the pool has room and its length equals
`buffer_size`. -/
theorem buffer_pool_bound (p : BufferPool) (ops : List PoolOp) :
    (run_pool p ops []).length ≤ p.max_buffers ∧
    ((run_pool p ops []).all (fun b => b == p.buffer_size)) = true ∧
    (get_buffer p (run_pool p ops [])).1 = p.buffer_size ∧
    ∀ (len : Nat) (s : List Nat),
      return_buffer p len s =
        if s.length < p.max_buffers ∧ len = p.buffer_size then s ++ [len]
        else s := by
  obtain ⟨h1, h2⟩ := run_pool_inv p ops [] (by simp) (by simp)
  refine ⟨h1, ?_, ?_, ?_⟩
  · exact List.all_eq_true.mpr (fun b hb => by simpa using h2 b hb)
  · cases hs : run_pool p ops [] with
    | nil => simp [get_buffer]
    | cons b rest =>
      have : b = p.buffer_size := h2 b (by rw [hs]; exact List.mem_cons_self b rest)
      simp [get_buffer, this]
  · intro len s
    by_cases hroom : s.length < p.max_buffers
    · by_cases hlen : len = p.buffer_size
      · simp [return_buffer, hroom, hlen]
      · simp [return_buffer, hroom, hlen]
    · simp [return_buffer, hroom]

/-- Every event emitted by the pass loop is a pass event. -/
theorem pass_loop_events {ε : Type} (pr : Nat → Option ε) (par : Bool) :
    ∀ (count start : Nat) (ev : OrchEvent),
      ev ∈ (pass_loop pr par start count).1 → ev.isPassRun = true := by
  intro count
  induction count with
  | zero => intro start ev h; simp [pass_loop] at h
  | succ n ih =>
    intro start ev h
    cases hpr : pr start with
    | none =>
      simp only [pass_loop, hpr] at h
      rcases List.mem_cons.mp h with h | h
      · subst h; rfl
      · exact ih (start + 1) ev h
    | some e =>
      simp only [pass_loop, hpr, List.mem_singleton] at h
      subst h; rfl

/-- When every scheduled pass succeeds, the pass loop reports success. -/
theorem pass_loop_all_ok {ε : Type} (pr : Nat → Option ε) (par : Bool) :
    ∀ (count start : Nat),
      (∀ j, start ≤ j → j < start + count → pr j = none) →
      (pass_loop pr par start count).2 = none := by
  intro count
  induction count with
  | zero => intro start _; simp [pass_loop]
  | succ n ih =>
    intro start hok
    have h0 : pr start = none := hok start le_rfl (by omega)
    simp only [pass_loop, h0]
    exact ih (start + 1) (fun j h1 h2 => hok j (by omega) (by omega))

/-- If the first failing pass in the loop's window is pass `k`, the loop
returns that pass's error and the events run are exactly the passes up to and
including `k`. -/
theorem pass_loop_first_fail {ε : Type} (pr : Nat → Option ε) (par : Bool)
    (k : Nat) (e : ε) (hfail : pr k = some e) :
    ∀ (count start : Nat), start ≤ k → k < start + count →
      (∀ j, start ≤ j → j < k → pr j = none) →
      (pass_loop pr par start count).2 = some e ∧
        ∀ ev ∈ (pass_loop pr par start count).1,
          ∃ j, j ≤ k ∧ ev = OrchEvent.passRun par j := by
  intro count
  induction count with
  | zero => intro start h1 h2 _; omega
  | succ n ih =>
    intro start h1 h2 hok
    rcases Nat.eq_or_lt_of_le h1 with heq | hlt
    · subst heq
      simp only [pass_loop, hfail]
      exact ⟨trivial, fun ev hev => ⟨start, le_rfl,
        by simpa using List.mem_singleton.mp hev⟩⟩
    · have h0 : pr start = none := hok start le_rfl hlt
      simp only [pass_loop, h0]
      obtain ⟨hres, hevs⟩ := ih (start + 1) hlt (by omega)
        (fun j ha hb => hok j (by omega) hb)
      refine ⟨hres, fun ev hev => ?_⟩
      rcases List.mem_cons.mp hev with h | h
      · exact ⟨start, by omega, h⟩
      · exact hevs ev h

/-- The `Result` of `verify_wipe` is success whatever the scan found. -/
theorem verify_wipe_snd {ε : Type} (contents : List Nat) :
    (verify_wipe (ε := ε) contents).2 = none :=
  rfl

/-- Every event in the orchestrator's trace is one of its own steps: the
pre-wipe setup, a pass, the verifier, the post-wipe cleanup or the final
`remove_file`. -/
theorem wipe_trace_events {ε : Type} (config : AmaterasuConfig)
    (patterns : List WipePattern) (passResult : Nat → Option ε)
    (file_size : Nat) (contents : List Nat) :
    ∀ ev ∈ (FileWiper.wipe config patterns passResult file_size contents).1,
      ev = OrchEvent.preSetup ∨ ev.isPassRun = true ∨
      ev = OrchEvent.verifyRun ∨ ev = OrchEvent.postCleanup ∨
      ev = OrchEvent.removeFile := by
  intro ev hev
  cases hres : (pass_loop passResult (uses_parallel_path file_size) 0
      patterns.length).2 with
  | some e =>
    simp only [FileWiper.wipe, hres] at hev
    rcases List.mem_cons.mp hev with h | h
    · exact Or.inl h
    · exact Or.inr (Or.inl (pass_loop_events passResult _ _ _ ev h))
  | none =>
    simp only [FileWiper.wipe, hres, verify_wipe_snd, ite_self] at hev
    rcases List.mem_append.mp hev with h | h
    · rcases List.mem_append.mp h with h | h
      · rcases List.mem_cons.mp h with h | h
        · exact Or.inl h
        · exact Or.inr (Or.inl (pass_loop_events passResult _ _ _ ev h))
      · by_cases hv : config.verify
        · simp only [hv, if_true, List.mem_singleton] at h
          exact Or.inr (Or.inr (Or.inl h))
        · simp [hv] at h
    · rcases List.mem_cons.mp h with h | h
      · exact Or.inr (Or.inr (Or.inr (Or.inl h)))
      · exact Or.inr (Or.inr (Or.inr (Or.inr (by simpa using h))))

/-- With enough fuel, the windowed early-exit scan of `verify_wipe` finds a
non-zero byte exactly when one exists. -/
theorem verify_loop_aux_eq_any :
    ∀ (fuel : Nat) (l : List Nat), l.length ≤ fuel →
      verify_loop_aux fuel l = l.any (fun b => b != 0) := by
  intro fuel
  induction fuel with
  | zero =>
    intro l h
    have : l = [] := List.eq_nil_of_length_eq_zero (by omega)
    simp [this, verify_loop_aux]
  | succ n ih =>
    intro l h
    by_cases h0 : l = []
    · simp [h0, verify_loop_aux]
    · simp only [verify_loop_aux, if_neg h0]
      cases htake : (l.take 8192).any (fun b => b != 0) with
      | true =>
        have hany : l.any (fun b => b != 0) = true := by
          conv_lhs => rw [← List.take_append_drop 8192 l]
          rw [List.any_append, htake, Bool.true_or]
        simp [htake, hany]
      | false =>
        simp only [htake, Bool.false_eq_true, if_false]
        have hlen : (l.drop 8192).length ≤ n := by
          have h1 : 0 < l.length := List.length_pos.mpr h0
          simp only [List.length_drop]
          omega
        rw [ih (l.drop 8192) hlen]
        conv_rhs => rw [← List.take_append_drop 8192 l]
        rw [List.any_append, htake, Bool.false_or]

/-- `pattern_found`, as computed by the scan of `verify_wipe`, is exactly
"some byte of the file is non-zero". -/
theorem verify_scan_eq (contents : List Nat) :
    verify_scan contents = contents.any (fun b => b != 0) :=
  verify_loop_aux_eq_any contents.length contents le_rfl

/-- Unfolding law of the streamed chunk computation: each loop iteration
writes `min block_size remaining` bytes. -/
theorem stream_chunks_unfold (bs fs : Nat) (hbs : 0 < bs) :
    stream_chunks bs fs =
      if fs = 0 then []
      else min bs fs :: stream_chunks bs (fs - min bs fs) := by
  by_cases h0 : fs = 0
  · simp [h0, stream_chunks, stream_chunks_aux_zero]
  · cases fs with
    | zero => exact absurd rfl h0
    | succ n =>
      have hmin1 : 1 ≤ min bs (n + 1) := by omega
      simp only [stream_chunks, stream_chunks_aux, if_neg h0]
      rw [stream_chunks_aux_fuel bs hbs n (n + 1 - min bs (n + 1))
        (n + 1 - min bs (n + 1)) (by omega) (by omega)]

/-- Claim C3: for a file whose size is at or below the 1 MiB threshold the
streamed path is selected; the streamed pass seeks to offset 0, writes chunks
of `min block_size remaining` bytes flushing after each, the chunk sizes sum
to exactly `file_size` (no more, no less), and a single full `sync_all`
follows the loop. -/
theorem streamed_pass_exact (block_size file_size : Nat)
    (hbs : 0 < block_size) (hth : file_size ≤ 1048576) :
    uses_parallel_path file_size = false ∧
    (stream_chunks block_size file_size).sum = file_size ∧
    stream_chunks block_size file_size
        = (if file_size = 0 then []
           else min block_size file_size ::
             stream_chunks block_size
               (file_size - min block_size file_size)) ∧
    wipe_pass_trace block_size file_size
        = PassEvent.seek 0 ::
            ((stream_chunks block_size file_size).flatMap
              (fun c => [PassEvent.write c, PassEvent.flush]))
            ++ [PassEvent.syncAll] := by
  refine ⟨?_, ?_, ?_, ?_⟩
  · simp only [uses_parallel_path, decide_eq_false_iff_not]
    omega
  · exact stream_chunks_aux_sum block_size hbs file_size file_size le_rfl
  · exact stream_chunks_unfold block_size file_size hbs
  · simp only [wipe_pass_trace, stream_chunks]
    rw [wipe_pass_aux_eq]

/-- Witness for C3 at concrete inputs. -/
theorem streamed_pass_exact_witness :
    0 < 512 ∧ (1000 : Nat) ≤ 1048576 ∧ (stream_chunks 512 1000).sum = 1000 :=
  ⟨by decide, by decide,
   (streamed_pass_exact 512 1000 (by decide) (by decide)).2.1⟩

/-- Claim C2, refuted on the code: the orchestrator's trace never contains a
metadata-wiper step (timestamp randomization, xattr clearing, renames or the
wiper's own unlink) for any configuration, pattern list, pass outcome, size
and contents — `FileWiper::wipe` calls `std::fs::remove_file` directly and
`MetadataWiper` is never invoked — even though `MetadataWiper::wipe_metadata`
(which the claim expects to run) would perform exactly those steps, as its
trace at the default configuration shows; a concrete successful Standard-mode
wipe removes the file with no metadata step before it. -/
theorem wipe_unlinks_without_metadata_wipe :
    (∀ (ε : Type) (config : AmaterasuConfig) (patterns : List WipePattern)
        (passResult : Nat → Option ε) (file_size : Nat)
        (contents : List Nat),
      ((FileWiper.wipe config patterns passResult file_size
          contents).1.all (fun ev => !ev.isMetadataStep)) = true) ∧
    MetadataWiper.wipe_metadata_trace ⟨3, true, true⟩
        = [OrchEvent.tsRandomize, OrchEvent.xattrClear,
           OrchEvent.renameStep 0, OrchEvent.renameStep 1,
           OrchEvent.renameStep 2, OrchEvent.metaUnlink] ∧
    FileWiper.wipe (ε := Unit) ⟨true, true, false, WipeMode.Standard⟩
        [WipePattern.Random 0, WipePattern.Zeros, WipePattern.Random 1]
        (fun _ => none) 1000 []
      = ([OrchEvent.preSetup, OrchEvent.passRun false 0,
          OrchEvent.passRun false 1, OrchEvent.passRun false 2,
          OrchEvent.verifyRun, OrchEvent.postCleanup,
          OrchEvent.removeFile], none) := by
  refine ⟨?_, by decide, by decide⟩
  intro ε config patterns passResult file_size contents
  rw [List.all_eq_true]
  intro ev hev
  rcases wipe_trace_events config patterns passResult file_size contents
    ev hev with h | h | h | h | h
  · subst h; rfl
  · cases ev <;> simp_all [OrchEvent.isPassRun, OrchEvent.isMetadataStep]
  · subst h; rfl
  · subst h; rfl
  · subst h; rfl

/-- Claim C4: if the first failing pass is pass `k` (a write/seek/sync error
`e`), the wipe returns that same error, no pass after `k` is executed, the
verifier never runs, and the file is not removed. -/
theorem write_error_aborts_path {ε : Type} (config : AmaterasuConfig)
    (patterns : List WipePattern) (passResult : Nat → Option ε)
    (file_size : Nat) (contents : List Nat) (k : Nat) (e : ε)
    (hk : k < patterns.length)
    (hok : ∀ j, j < k → passResult j = none)
    (hfail : passResult k = some e) :
    (FileWiper.wipe config patterns passResult file_size contents).2
        = some e ∧
    OrchEvent.removeFile ∉
      (FileWiper.wipe config patterns passResult file_size contents).1 ∧
    OrchEvent.verifyRun ∉
      (FileWiper.wipe config patterns passResult file_size contents).1 ∧
    ∀ par j, OrchEvent.passRun par j ∈
        (FileWiper.wipe config patterns passResult file_size contents).1 →
      j ≤ k := by
  obtain ⟨hres, hevs⟩ := pass_loop_first_fail passResult
    (uses_parallel_path file_size) k e hfail patterns.length 0
    (Nat.zero_le k) (by omega) (fun j _ hj => hok j hj)
  refine ⟨?_, ?_, ?_, ?_⟩
  · simp only [FileWiper.wipe, hres]
  · simp only [FileWiper.wipe, hres]
    intro hmem
    rcases List.mem_cons.mp hmem with h | h
    · exact absurd h (by decide)
    · obtain ⟨j, _, hj⟩ := hevs _ h
      exact absurd hj (by simp)
  · simp only [FileWiper.wipe, hres]
    intro hmem
    rcases List.mem_cons.mp hmem with h | h
    · exact absurd h (by decide)
    · obtain ⟨j, _, hj⟩ := hevs _ h
      exact absurd hj (by simp)
  · simp only [FileWiper.wipe, hres]
    intro par j hmem
    rcases List.mem_cons.mp hmem with h | h
    · exact absurd h (by simp)
    · obtain ⟨j', hj', hev⟩ := hevs _ h
      obtain ⟨rfl, rfl⟩ : par = uses_parallel_path file_size ∧ j = j' := by
        simpa [eq_comm] using hev
      exact hj'

/-- Witness for C4 at concrete inputs: two scheduled passes, pass 1 fails. -/
theorem write_error_aborts_path_witness :
    (1 < 2 ∧ (∀ j : Nat, j < 1 →
        (if j = 1 then some () else none) = none) ∧
      (if 1 = 1 then some () else none) = some ()) ∧
    (FileWiper.wipe (ε := Unit) ⟨true, true, false, WipeMode.Standard⟩
        [WipePattern.Zeros, WipePattern.Zeros]
        (fun j => if j = 1 then some () else none) 100 []).2 = some () := by
  have hok : ∀ j : Nat, j < 1 → (if j = 1 then some () else none) = none := by
    intro j hj
    have : j = 0 := by omega
    simp [this]
  exact ⟨⟨by omega, hok, by simp⟩,
    (write_error_aborts_path ⟨true, true, false, WipeMode.Standard⟩
      [WipePattern.Zeros, WipePattern.Zeros]
      (fun j => if j = 1 then some () else none) 100 [] 1 ()
      (by simp) hok (by simp)).1⟩

/-- Claim C5: the zero-fill verification scan reports success exactly when
some byte of the file is non-zero (early exit on the first such byte); a file
of only zeros yields the warning outcome; the verifier's returned `Result` is
success in either case; and when all passes succeed the wipe still completes
and the file is removed, whatever the contents. -/
theorem verify_outcome_never_blocks_unlink {ε : Type}
    (config : AmaterasuConfig) (patterns : List WipePattern)
    (passResult : Nat → Option ε) (file_size : Nat) (contents : List Nat)
    (hv : config.verify = true)
    (hok : ∀ j, j < patterns.length → passResult j = none) :
    (verify_scan contents = true ↔ ∃ b ∈ contents, b ≠ 0) ∧
    ((verify_wipe (ε := ε) contents).1 = VerifyOutcome.warnedAllZeros ↔
      ∀ b ∈ contents, b = 0) ∧
    (verify_wipe (ε := ε) contents).2 = none ∧
    (FileWiper.wipe config patterns passResult file_size contents).2
        = none ∧
    OrchEvent.removeFile ∈
      (FileWiper.wipe config patterns passResult file_size contents).1 := by
  have hres : (pass_loop passResult (uses_parallel_path file_size) 0
      patterns.length).2 = none :=
    pass_loop_all_ok passResult (uses_parallel_path file_size)
      patterns.length 0 (fun j _ hj => hok j (by omega))
  refine ⟨?_, ?_, rfl, ?_, ?_⟩
  · rw [verify_scan_eq]
    simp [List.any_eq_true]
  · show (if verify_scan contents then VerifyOutcome.success
        else VerifyOutcome.warnedAllZeros) = VerifyOutcome.warnedAllZeros ↔ _
    rw [verify_scan_eq]
    cases hsc : contents.any (fun b => b != 0) with
    | false =>
      simp only [Bool.false_eq_true, if_false, true_iff]
      intro b hb
      have := List.any_eq_false.mp hsc b hb
      simpa using this
    | true =>
      simp only [if_true]
      constructor
      · intro h
        exact ((by decide :
          VerifyOutcome.success ≠ VerifyOutcome.warnedAllZeros) h).elim
      · intro hall
        obtain ⟨b, hb, hbne⟩ := List.any_eq_true.mp hsc
        have hb0 : b ≠ 0 := by simpa using hbne
        exact (hb0 (hall b hb)).elim
  · simp only [FileWiper.wipe, hres, verify_wipe_snd, ite_self]
  · simp only [FileWiper.wipe, hres, verify_wipe_snd, ite_self]
    simp [hv]

/-- Witness for C5 at concrete inputs: one pass, a file holding a non-zero
byte. -/
theorem verify_outcome_never_blocks_unlink_witness :
    ((⟨true, true, false, WipeMode.Fast⟩ : AmaterasuConfig).verify = true ∧
      (∀ j : Nat, j < [WipePattern.Random 0].length →
        (fun _ : Nat => (none : Option Unit)) j = none)) ∧
    OrchEvent.removeFile ∈
      (FileWiper.wipe (ε := Unit) ⟨true, true, false, WipeMode.Fast⟩
        [WipePattern.Random 0] (fun _ => none) 64 [0, 7, 0]).1 :=
  ⟨⟨rfl, fun _ _ => rfl⟩,
    (verify_outcome_never_blocks_unlink ⟨true, true, false, WipeMode.Fast⟩
      [WipePattern.Random 0] (fun _ => none) 64 [0, 7, 0] rfl
      (fun _ _ => rfl)).2.2.2.2⟩

/-- Claim C1, evaluated at the failing input: a 2 MiB file on `Unknown`
storage (optimal block size 4096) takes the parallel path with
`chunk_size = 4096 * 16 = 65536`; `parallel_wipe` does partition `[0, 2 MiB)`
into 32 such chunks, but each `wipe_chunk` task writes only
`chunk_size.min(buffer_len) = 4096` bytes of its 65536-byte chunk, so after a
`Fixed 0xAA` pass the byte at offset 4096 still holds its previous value
(0x41 here) instead of 0xAA. -/
theorem parallel_pass_skips_chunk_tails :
    StorageType.Unknown.get_optimal_block_size = 4096 ∧
    uses_parallel_path 2097152 = true ∧
    parallel_chunk_ranges 2097152 65536
        = (List.range 32).map (fun i => (i * 65536, 65536)) ∧
    async_wipe_pass_writes 4096 2097152
        = (List.range 32).map (fun i => (i * 65536, 4096)) ∧
    byte_after_fixed_writes (async_wipe_pass_writes 4096 2097152) 0xAA
        (fun _ => 0x41) 4096 = 0x41 := by
  refine ⟨rfl, rfl, by decide, by decide, by decide⟩

/-- Claim C9: when the `dumpe2fs` journal probe cannot run or exits
unsuccessfully, `check_ext4_journal` reports a journal (`true`); it reports
`false` exactly when the probe succeeded and its output does not contain
"has_journal"; and `parse_filesystem_type` on "ext4" builds the descriptor
from that probe result. -/
theorem ext4_journal_default_true
    (dumpe2fs : List Char → Option (List Char)) (device : List Char) :
    (dumpe2fs device = none → check_ext4_journal dumpe2fs device = true) ∧
    (check_ext4_journal dumpe2fs device = false ↔
      ∃ out, dumpe2fs device = some out ∧
        contains_substr out "has_journal".data = false) ∧
    parse_filesystem_type dumpe2fs "ext4".data device
        = FilesystemType.Ext4 (check_ext4_journal dumpe2fs device) := by
  refine ⟨?_, ?_, ?_⟩
  · intro h
    simp [check_ext4_journal, h]
  · cases h : dumpe2fs device with
    | none => simp [check_ext4_journal, h]
    | some out => simp [check_ext4_journal, h]
  · have hlower : ("ext4".data.map Char.toLower) = "ext4".data := by decide
    simp [parse_filesystem_type, hlower]

/-- Witness for C9 at concrete inputs: the probe fails, the descriptor says
journal present. -/
theorem ext4_journal_default_true_witness :
    (fun _ : List Char => (none : Option (List Char))) "sda".data = none ∧
    check_ext4_journal (fun _ => none) "sda".data = true :=
  ⟨rfl, (ext4_journal_default_true (fun _ => none) "sda".data).1 rfl⟩

/-- Claim C10: the random rename name has length 16 at iteration 0, 8 at
iteration 1 and 1 at every iteration from 2 on, and it is always placed in
the parent directory of the current path. -/
theorem rename_names_shrink (p : List (List Char)) (i : Nat)
    (rng : Nat → Nat) :
    rename_name_length 0 = 16 ∧ rename_name_length 1 = 8 ∧
    (2 ≤ i → rename_name_length i = 1) ∧
    (generate_random_name p i rng).dropLast = path_parent p ∧
    ∃ nm, generate_random_name p i rng = path_parent p ++ [nm] ∧
      nm.length = rename_name_length i := by
  refine ⟨rfl, rfl, ?_, ?_, ?_⟩
  · intro h
    rcases i with _ | _ | n
    · omega
    · omega
    · rfl
  · simp [generate_random_name]
  · exact ⟨_, rfl, by simp [generate_random_name]⟩

/-- Witness for C10 at concrete inputs: a wiper iterating five renames uses a
single-character name at iteration 5. -/
theorem rename_names_shrink_witness :
    2 ≤ 5 ∧ rename_name_length 5 = 1 :=
  ⟨by omega,
   (rename_names_shrink [['a'], ['b']] 5 id).2.2.1 (by omega)⟩

end Amaterasu
